import Mathlib

/-!
Verification of `mgcpy/independence_tests/hhg.py` (the HHG independence
test).  Real-valued numpy matrices are embedded as `RawMat` over `ℚ`
(shape plus an entry function); numpy's float arithmetic is modelled by
exact rational arithmetic.  The external collaborator
`scipy.spatial.distance_matrix` (the spec lists distance-metric libraries
as out-of-scope external collaborators) is modelled as an explicit
function parameter `distfn`; its contract (it returns a square
`rows × rows` matrix) enters theorems as a hypothesis where needed.
-/

namespace HHG

/-- A numpy 2-D array: a `rows × cols` matrix of rationals.  Entries are
given by a total function; only indices below the bounds are ever used. -/
structure RawMat where
  rows : ℕ
  cols : ℕ
  entry : ℕ → ℕ → ℚ

/-- `sum(M.diagonal()**2)`: numpy's `diagonal` of a `rows × cols` array has
`min rows cols` entries. -/
def diagSumSq (M : RawMat) : ℚ :=
  ∑ k ∈ Finset.range (min M.rows M.cols), (M.entry k k) ^ 2

/-- Lines 56-63 of `hhg.py` (applied to each input separately):
`if row != columns or sum(diagonal**2) > 0: dist = distance_matrix(M, M)
else: dist = M`.  `distfn` stands for the external
`scipy.spatial.distance_matrix(M, M)` call. -/
def toDist (distfn : RawMat → RawMat) (M : RawMat) : RawMat :=
  if M.rows ≠ M.cols ∨ 0 < diagSumSq M then distfn M else M

/-- The boolean indicator `D[i, :] <= D[i, j]` at position `k`
(`tmp1`/`tmp2` in the source, for `D` the X- resp. Y-distance matrix). -/
def tmp (D : ℕ → ℕ → ℚ) (i j k : ℕ) : Bool :=
  decide (D i k ≤ D i j)

/-- numpy's coercion of a boolean to the integer `0`/`1` used when boolean
arrays are summed or combined with `1 - ·`. -/
def bi (b : Bool) : ℤ := if b then 1 else 0

/-- `t11 = np.sum(tmp1 * tmp2) - 2` (line 74). -/
def t11 (n : ℕ) (Dx Dy : ℕ → ℕ → ℚ) (i j : ℕ) : ℤ :=
  (∑ k ∈ Finset.range n, bi (tmp Dx i j k) * bi (tmp Dy i j k)) - 2

/-- `t12 = np.sum(tmp1 * (1 - tmp2))` (line 75). -/
def t12 (n : ℕ) (Dx Dy : ℕ → ℕ → ℚ) (i j : ℕ) : ℤ :=
  ∑ k ∈ Finset.range n, bi (tmp Dx i j k) * (1 - bi (tmp Dy i j k))

/-- `t21 = np.sum((1 - tmp1) * tmp2)` (line 76). -/
def t21 (n : ℕ) (Dx Dy : ℕ → ℕ → ℚ) (i j : ℕ) : ℤ :=
  ∑ k ∈ Finset.range n, (1 - bi (tmp Dx i j k)) * bi (tmp Dy i j k)

/-- `t22 = np.sum((1 - tmp1) * (1 - tmp2))` (line 77). -/
def t22 (n : ℕ) (Dx Dy : ℕ → ℕ → ℚ) (i j : ℕ) : ℤ :=
  ∑ k ∈ Finset.range n, (1 - bi (tmp Dx i j k)) * (1 - bi (tmp Dy i j k))

/-- `denom = (t11+t12) * (t21+t22) * (t11+t21) * (t12+t22)` (line 78). -/
def denom (n : ℕ) (Dx Dy : ℕ → ℕ → ℚ) (i j : ℕ) : ℤ :=
  (t11 n Dx Dy i j + t12 n Dx Dy i j) * (t21 n Dx Dy i j + t22 n Dx Dy i j) *
    (t11 n Dx Dy i j + t21 n Dx Dy i j) * (t12 n Dx Dy i j + t22 n Dx Dy i j)

/-- The entry `S[i, j]`: zero-initialised, assigned
`(n-2) * (t12*t21 - t11*t22)**2 / denom` only when `i != j` and
`denom > 0` (lines 70-81; the division is numpy true division). -/
def Sij (n : ℕ) (Dx Dy : ℕ → ℕ → ℚ) (i j : ℕ) : ℚ :=
  if i ≠ j ∧ 0 < denom n Dx Dy i j then
    ((n : ℚ) - 2) *
      ((t12 n Dx Dy i j * t21 n Dx Dy i j - t11 n Dx Dy i j * t22 n Dx Dy i j : ℤ) : ℚ) ^ 2 /
      ((denom n Dx Dy i j : ℤ) : ℚ)
  else 0

/-- `corr = np.sum(S)` (line 82): the double loop over `i, j in range(n)`. -/
def hhg_sum (n : ℕ) (Dx Dy : ℕ → ℕ → ℚ) : ℚ :=
  ∑ i ∈ Finset.range n, ∑ j ∈ Finset.range n, Sij n Dx Dy i j

/-- `HHG.test_statistic` (lines 52-87): builds the two distance matrices,
takes `n = dist_mtx_X.shape[0]`, accumulates `S`, and returns the pair
`(corr, {})` — the statistic together with the (always empty) metadata
dict, modelled as an association list. -/
def test_statistic_full (distfn : RawMat → RawMat) (matrix_X matrix_Y : RawMat) :
    ℚ × List (String × ℚ) :=
  let dist_mtx_X := toDist distfn matrix_X
  let dist_mtx_Y := toDist distfn matrix_Y
  let n := dist_mtx_X.rows
  (hhg_sum n dist_mtx_X.entry dist_mtx_Y.entry, [])

/-- The scalar component of `test_statistic`'s return value. -/
def test_statistic (distfn : RawMat → RawMat) (matrix_X matrix_Y : RawMat) : ℚ :=
  (test_statistic_full distfn matrix_X matrix_Y).1

lemma diagSumSq_nonneg (M : RawMat) : 0 ≤ diagSumSq M :=
  Finset.sum_nonneg fun k _ => sq_nonneg (M.entry k k)

/-- C3: the statistic computation passes `M` through unchanged exactly when
`M` is square and the sum of its squared diagonal entries is zero;
otherwise the (externally computed) pairwise distance matrix `distfn M` is
used; and this decision is applied independently to each of the two
inputs. -/
theorem toDist_decision (distfn : RawMat → RawMat) (M X Y : RawMat) :
    toDist distfn M = (if M.rows = M.cols ∧ diagSumSq M = 0 then M else distfn M) ∧
      test_statistic_full distfn X Y =
        (hhg_sum (toDist distfn X).rows (toDist distfn X).entry (toDist distfn Y).entry, []) := by
  constructor
  · unfold toDist
    by_cases hsq : M.rows = M.cols
    · by_cases hd : diagSumSq M = 0
      · rw [if_neg, if_pos ⟨hsq, hd⟩]
        rw [not_or]
        exact ⟨not_not_intro hsq, by rw [hd]; exact lt_irrefl 0⟩
      · have hpos : 0 < diagSumSq M := lt_of_le_of_ne (diagSumSq_nonneg M) (Ne.symm hd)
        rw [if_pos (Or.inr hpos), if_neg]
        intro h
        exact hd h.2
    · rw [if_pos (Or.inl hsq), if_neg]
      intro h
      exact hsq h.1
  · rfl

/-! ### Claim-worded restatement of the per-pair computation (for C1)

The spec describes the four counts as cardinalities of subsets of the `n`
points; the source computes them as sums of products of 0/1 indicator
arrays.  The `spec…` definitions below transcribe the spec's wording; the
refinement theorem identifies them with the source's computation. -/

/-- `t11` as the spec words it: `|{k : A[k] and B[k]}| - 2`. -/
def specT11 (n : ℕ) (Dx Dy : ℕ → ℕ → ℚ) (i j : ℕ) : ℤ :=
  (((Finset.range n).filter fun k => Dx i k ≤ Dx i j ∧ Dy i k ≤ Dy i j).card : ℤ) - 2

/-- `t12` as the spec words it: `|{k : A[k] and not B[k]}|`. -/
def specT12 (n : ℕ) (Dx Dy : ℕ → ℕ → ℚ) (i j : ℕ) : ℤ :=
  (((Finset.range n).filter fun k => Dx i k ≤ Dx i j ∧ ¬ Dy i k ≤ Dy i j).card : ℤ)

/-- `t21` as the spec words it: `|{k : not A[k] and B[k]}|`. -/
def specT21 (n : ℕ) (Dx Dy : ℕ → ℕ → ℚ) (i j : ℕ) : ℤ :=
  (((Finset.range n).filter fun k => ¬ Dx i k ≤ Dx i j ∧ Dy i k ≤ Dy i j).card : ℤ)

/-- `t22` as the spec words it: `|{k : not A[k] and not B[k]}|`. -/
def specT22 (n : ℕ) (Dx Dy : ℕ → ℕ → ℚ) (i j : ℕ) : ℤ :=
  (((Finset.range n).filter fun k => ¬ Dx i k ≤ Dx i j ∧ ¬ Dy i k ≤ Dy i j).card : ℤ)

/-- The spec's denominator for the pair `(i, j)`. -/
def specDenom (n : ℕ) (Dx Dy : ℕ → ℕ → ℚ) (i j : ℕ) : ℤ :=
  (specT11 n Dx Dy i j + specT12 n Dx Dy i j) * (specT21 n Dx Dy i j + specT22 n Dx Dy i j) *
    (specT11 n Dx Dy i j + specT21 n Dx Dy i j) * (specT12 n Dx Dy i j + specT22 n Dx Dy i j)

/-- The spec's per-pair contribution:
`(n-2) * (t12*t21 - t11*t22)^2 / denom` when `denom > 0`, else `0`. -/
def specContrib (n : ℕ) (Dx Dy : ℕ → ℕ → ℚ) (i j : ℕ) : ℚ :=
  if 0 < specDenom n Dx Dy i j then
    ((n : ℚ) - 2) *
      ((specT12 n Dx Dy i j * specT21 n Dx Dy i j -
          specT11 n Dx Dy i j * specT22 n Dx Dy i j : ℤ) : ℚ) ^ 2 /
      ((specDenom n Dx Dy i j : ℤ) : ℚ)
  else 0

/-- The spec's statistic: the sum of the contributions over all ordered
pairs `i ≠ j`. -/
def specSum (n : ℕ) (Dx Dy : ℕ → ℕ → ℚ) : ℚ :=
  ∑ i ∈ Finset.range n, ∑ j ∈ (Finset.range n).erase i, specContrib n Dx Dy i j

/-- The distance-matrix invariants of the spec's data model: zero diagonal,
nonnegative entries, symmetry (on the first `n` indices). -/
def IsDistMat (n : ℕ) (D : ℕ → ℕ → ℚ) : Prop :=
  (∀ i, i < n → D i i = 0) ∧ ∀ i, i < n → ∀ j, j < n → 0 ≤ D i j ∧ D i j = D j i

instance IsDistMat.instDecidable (n : ℕ) (D : ℕ → ℕ → ℚ) :
    Decidable (IsDistMat n D) := by
  unfold IsDistMat
  infer_instance

lemma bi_mul_bi (p q : Prop) [Decidable p] [Decidable q] :
    bi (decide p) * bi (decide q) = if p ∧ q then 1 else 0 := by
  by_cases hp : p <;> by_cases hq : q <;> simp [bi, hp, hq]

lemma bi_mul_nbi (p q : Prop) [Decidable p] [Decidable q] :
    bi (decide p) * (1 - bi (decide q)) = if p ∧ ¬ q then 1 else 0 := by
  by_cases hp : p <;> by_cases hq : q <;> simp [bi, hp, hq]

lemma nbi_mul_bi (p q : Prop) [Decidable p] [Decidable q] :
    (1 - bi (decide p)) * bi (decide q) = if ¬ p ∧ q then 1 else 0 := by
  by_cases hp : p <;> by_cases hq : q <;> simp [bi, hp, hq]

lemma nbi_mul_nbi (p q : Prop) [Decidable p] [Decidable q] :
    (1 - bi (decide p)) * (1 - bi (decide q)) = if ¬ p ∧ ¬ q then 1 else 0 := by
  by_cases hp : p <;> by_cases hq : q <;> simp [bi, hp, hq]

lemma t11_eq_spec (n : ℕ) (Dx Dy : ℕ → ℕ → ℚ) (i j : ℕ) :
    t11 n Dx Dy i j = specT11 n Dx Dy i j := by
  unfold t11 specT11 tmp
  congr 1
  rw [Finset.sum_congr rfl fun k _ => bi_mul_bi (Dx i k ≤ Dx i j) (Dy i k ≤ Dy i j)]
  rw [Finset.sum_boole]

lemma t12_eq_spec (n : ℕ) (Dx Dy : ℕ → ℕ → ℚ) (i j : ℕ) :
    t12 n Dx Dy i j = specT12 n Dx Dy i j := by
  unfold t12 specT12 tmp
  rw [Finset.sum_congr rfl fun k _ => bi_mul_nbi (Dx i k ≤ Dx i j) (Dy i k ≤ Dy i j)]
  rw [Finset.sum_boole]

lemma t21_eq_spec (n : ℕ) (Dx Dy : ℕ → ℕ → ℚ) (i j : ℕ) :
    t21 n Dx Dy i j = specT21 n Dx Dy i j := by
  unfold t21 specT21 tmp
  rw [Finset.sum_congr rfl fun k _ => nbi_mul_bi (Dx i k ≤ Dx i j) (Dy i k ≤ Dy i j)]
  rw [Finset.sum_boole]

lemma t22_eq_spec (n : ℕ) (Dx Dy : ℕ → ℕ → ℚ) (i j : ℕ) :
    t22 n Dx Dy i j = specT22 n Dx Dy i j := by
  unfold t22 specT22 tmp
  rw [Finset.sum_congr rfl fun k _ => nbi_mul_nbi (Dx i k ≤ Dx i j) (Dy i k ≤ Dy i j)]
  rw [Finset.sum_boole]

lemma denom_eq_spec (n : ℕ) (Dx Dy : ℕ → ℕ → ℚ) (i j : ℕ) :
    denom n Dx Dy i j = specDenom n Dx Dy i j := by
  unfold denom specDenom
  rw [t11_eq_spec, t12_eq_spec, t21_eq_spec, t22_eq_spec]

lemma Sij_diag (n : ℕ) (Dx Dy : ℕ → ℕ → ℚ) (i : ℕ) : Sij n Dx Dy i i = 0 := by
  unfold Sij
  simp

lemma Sij_eq_spec (n : ℕ) (Dx Dy : ℕ → ℕ → ℚ) (i j : ℕ) (hij : i ≠ j) :
    Sij n Dx Dy i j = specContrib n Dx Dy i j := by
  unfold Sij specContrib
  rw [t11_eq_spec, t12_eq_spec, t21_eq_spec, t22_eq_spec, denom_eq_spec]
  simp [hij]

lemma hhg_sum_eq_spec (n : ℕ) (Dx Dy : ℕ → ℕ → ℚ) :
    hhg_sum n Dx Dy = specSum n Dx Dy := by
  unfold hhg_sum specSum
  refine Finset.sum_congr rfl fun i _ => ?_
  rw [← Finset.sum_erase (Finset.range n) (Sij_diag n Dx Dy i)]
  exact Finset.sum_congr rfl fun j hj =>
    Sij_eq_spec n Dx Dy i j (Finset.ne_of_mem_erase hj).symm

lemma toDist_passthrough (distfn : RawMat → RawMat) (M : RawMat) (n : ℕ)
    (hr : M.rows = n) (hc : M.cols = n) (hdiag : ∀ i, i < n → M.entry i i = 0) :
    toDist distfn M = M := by
  unfold toDist
  rw [if_neg]
  rw [not_or]
  refine ⟨not_not_intro (hr.trans hc.symm), ?_⟩
  have hz : diagSumSq M = 0 := by
    unfold diagSumSq
    refine Finset.sum_eq_zero fun k hk => ?_
    have hkn : k < n := by
      have := Finset.mem_range.mp hk
      omega
    rw [hdiag k hkn]
    norm_num
  rw [hz]
  exact lt_irrefl 0

/-- C1: on a pair of `n × n` distance matrices the statistic computation
returns exactly the spec's double sum: over every ordered pair `i ≠ j`,
the contribution built from the four indicator-overlap counts
`t11 = |A ∩ B| - 2`, `t12 = |A \ B|`, `t21 = |B \ A|`, `t22` (complement),
namely `(n-2)*(t12*t21 - t11*t22)^2 / denom` when
`denom = (t11+t12)(t21+t22)(t11+t21)(t12+t22) > 0` and `0` otherwise. -/
theorem test_statistic_eq_spec (distfn : RawMat → RawMat) (X Y : RawMat) (n : ℕ)
    (hXr : X.rows = n) (hXc : X.cols = n) (hYr : Y.rows = n) (hYc : Y.cols = n)
    (hX : IsDistMat n X.entry) (hY : IsDistMat n Y.entry) :
    test_statistic distfn X Y = specSum n X.entry Y.entry := by
  unfold test_statistic test_statistic_full
  rw [toDist_passthrough distfn X n hXr hXc hX.1, toDist_passthrough distfn Y n hYr hYc hY.1]
  simp only [hXr]
  exact hhg_sum_eq_spec n X.entry Y.entry

/-- Entry function of a matrix given by a row list. -/
def matOf (rows : List (List ℚ)) : ℕ → ℕ → ℚ := fun i j => (rows.getD i []).getD j 0

/-- A concrete 3 × 3 distance matrix. -/
def Xw : RawMat := ⟨3, 3, matOf [[0, 1, 2], [1, 0, 3], [2, 3, 0]]⟩

/-- A second concrete 3 × 3 distance matrix. -/
def Yw : RawMat := ⟨3, 3, matOf [[0, 2, 1], [2, 0, 1], [1, 1, 0]]⟩

/-- Witness for C1 at the concrete pair `Xw`, `Yw`. -/
theorem test_statistic_eq_spec_witness :
    IsDistMat 3 Xw.entry ∧ test_statistic id Xw Yw = specSum 3 Xw.entry Yw.entry :=
  ⟨by decide, test_statistic_eq_spec id Xw Yw 3 rfl rfl rfl rfl (by decide) (by decide)⟩

/-! ### Nonnegativity (C5) -/

lemma bi_nonneg (b : Bool) : 0 ≤ bi b := by cases b <;> simp [bi]

lemma one_sub_bi_nonneg (b : Bool) : 0 ≤ 1 - bi b := by cases b <;> simp [bi]

lemma Sij_nonneg (n : ℕ) (Dx Dy : ℕ → ℕ → ℚ) (i j : ℕ) (hi : i < n) (hj : j < n) :
    0 ≤ Sij n Dx Dy i j := by
  unfold Sij
  split
  case isTrue h =>
    obtain ⟨hij, hd⟩ := h
    have hn : 2 ≤ n := by omega
    have hn' : (2 : ℚ) ≤ (n : ℚ) := by exact_mod_cast hn
    apply div_nonneg
    · exact mul_nonneg (by linarith) (sq_nonneg _)
    · exact_mod_cast le_of_lt hd
  case isFalse _ => exact le_refl 0

/-- C5: the statistic returned by `test_statistic` is nonnegative, being a
sum of per-pair contributions each of which is nonnegative. -/
theorem test_statistic_nonneg (distfn : RawMat → RawMat) (X Y : RawMat) (i j : ℕ)
    (hi : i < (toDist distfn X).rows) (hj : j < (toDist distfn X).rows) :
    0 ≤ Sij (toDist distfn X).rows (toDist distfn X).entry (toDist distfn Y).entry i j ∧
      0 ≤ test_statistic distfn X Y := by
  refine ⟨Sij_nonneg _ _ _ i j hi hj, ?_⟩
  have hts : test_statistic distfn X Y =
      hhg_sum (toDist distfn X).rows (toDist distfn X).entry (toDist distfn Y).entry := rfl
  rw [hts]
  unfold hhg_sum
  refine Finset.sum_nonneg fun a ha => Finset.sum_nonneg fun b hb => ?_
  exact Sij_nonneg _ _ _ a b (Finset.mem_range.mp ha) (Finset.mem_range.mp hb)

/-- Witness for C5 at the concrete pair `Xw`, `Yw` and indices `(0, 1)`. -/
theorem test_statistic_nonneg_witness :
    0 ≤ Sij (toDist id Xw).rows (toDist id Xw).entry (toDist id Yw).entry 0 1 ∧
      0 ≤ test_statistic id Xw Yw :=
  test_statistic_nonneg id Xw Yw 0 1
    (by rw [toDist_passthrough id Xw 3 rfl rfl (by decide)]; decide)
    (by rw [toDist_passthrough id Xw 3 rfl rfl (by decide)]; decide)

/-! ### The local contingency table (C6) -/

/-- C6: for distance matrices, every local contingency table has four
nonnegative counts summing to `n - 2`. -/
theorem contingency_table_counts (n : ℕ) (Dx Dy : ℕ → ℕ → ℚ) (i j : ℕ)
    (hX : IsDistMat n Dx) (hY : IsDistMat n Dy)
    (hi : i < n) (hj : j < n) (hij : i ≠ j) :
    0 ≤ t11 n Dx Dy i j ∧ 0 ≤ t12 n Dx Dy i j ∧ 0 ≤ t21 n Dx Dy i j ∧
      0 ≤ t22 n Dx Dy i j ∧
      t11 n Dx Dy i j + t12 n Dx Dy i j + t21 n Dx Dy i j + t22 n Dx Dy i j = (n : ℤ) - 2 := by
  have h12 : 0 ≤ t12 n Dx Dy i j :=
    Finset.sum_nonneg fun k _ => mul_nonneg (bi_nonneg _) (one_sub_bi_nonneg _)
  have h21 : 0 ≤ t21 n Dx Dy i j :=
    Finset.sum_nonneg fun k _ => mul_nonneg (one_sub_bi_nonneg _) (bi_nonneg _)
  have h22 : 0 ≤ t22 n Dx Dy i j :=
    Finset.sum_nonneg fun k _ => mul_nonneg (one_sub_bi_nonneg _) (one_sub_bi_nonneg _)
  -- the indices i and j themselves always satisfy both indicators
  have hXii : tmp Dx i j i = true := by
    unfold tmp
    rw [decide_eq_true_iff]
    rw [hX.1 i hi]
    exact (hX.2 i hi j hj).1
  have hYii : tmp Dy i j i = true := by
    unfold tmp
    rw [decide_eq_true_iff]
    rw [hY.1 i hi]
    exact (hY.2 i hi j hj).1
  have hXjj : tmp Dx i j j = true := by
    unfold tmp
    rw [decide_eq_true_iff]
  have hYjj : tmp Dy i j j = true := by
    unfold tmp
    rw [decide_eq_true_iff]
  have hsub : ({i, j} : Finset ℕ) ⊆ Finset.range n := by
    intro k hk
    rcases Finset.mem_insert.mp hk with h | h
    · exact h ▸ Finset.mem_range.mpr hi
    · exact (Finset.mem_singleton.mp h) ▸ Finset.mem_range.mpr hj
  have hpair : ∑ k ∈ ({i, j} : Finset ℕ), bi (tmp Dx i j k) * bi (tmp Dy i j k) = 2 := by
    rw [Finset.sum_pair hij, hXii, hYii, hXjj, hYjj]
    simp [bi]
  have hub : (2 : ℤ) ≤ ∑ k ∈ Finset.range n, bi (tmp Dx i j k) * bi (tmp Dy i j k) := by
    rw [← hpair]
    exact Finset.sum_le_sum_of_subset_of_nonneg hsub
      fun k _ _ => mul_nonneg (bi_nonneg _) (bi_nonneg _)
  have h11 : 0 ≤ t11 n Dx Dy i j := by
    unfold t11
    omega
  -- the four indicator products at any k sum to 1, so the counts sum to n - 2
  have hone : ∀ k, bi (tmp Dx i j k) * bi (tmp Dy i j k) +
      bi (tmp Dx i j k) * (1 - bi (tmp Dy i j k)) +
      (1 - bi (tmp Dx i j k)) * bi (tmp Dy i j k) +
      (1 - bi (tmp Dx i j k)) * (1 - bi (tmp Dy i j k)) = 1 := by
    intro k
    ring
  have htotal : (∑ k ∈ Finset.range n, bi (tmp Dx i j k) * bi (tmp Dy i j k)) +
      t12 n Dx Dy i j + t21 n Dx Dy i j + t22 n Dx Dy i j = (n : ℤ) := by
    unfold t12 t21 t22
    rw [← Finset.sum_add_distrib, ← Finset.sum_add_distrib, ← Finset.sum_add_distrib]
    rw [Finset.sum_congr rfl fun k _ => hone k]
    simp
  refine ⟨h11, h12, h21, h22, ?_⟩
  unfold t11
  omega

/-- Witness for C6 at the concrete pair `Xw`, `Yw` and indices `(0, 1)`. -/
theorem contingency_table_counts_witness :
    0 ≤ t11 3 Xw.entry Yw.entry 0 1 ∧ 0 ≤ t12 3 Xw.entry Yw.entry 0 1 ∧
      0 ≤ t21 3 Xw.entry Yw.entry 0 1 ∧ 0 ≤ t22 3 Xw.entry Yw.entry 0 1 ∧
      t11 3 Xw.entry Yw.entry 0 1 + t12 3 Xw.entry Yw.entry 0 1 +
        t21 3 Xw.entry Yw.entry 0 1 + t22 3 Xw.entry Yw.entry 0 1 = (3 : ℤ) - 2 :=
  contingency_table_counts 3 Xw.entry Yw.entry 0 1 (by decide) (by decide)
    (by decide) (by decide) (by decide)

/-! ### Degenerate small-sample behaviour (C7) -/

lemma Sij_two_01 (Dx Dy : ℕ → ℕ → ℚ) : Sij 2 Dx Dy 0 1 = 0 := by
  by_cases hA : Dx 0 0 ≤ Dx 0 1 <;> by_cases hB : Dy 0 0 ≤ Dy 0 1 <;>
    norm_num [Sij, t11, t12, t21, t22, denom, tmp, bi, Finset.sum_range_succ, hA, hB]

lemma Sij_two_10 (Dx Dy : ℕ → ℕ → ℚ) : Sij 2 Dx Dy 1 0 = 0 := by
  by_cases hA : Dx 1 1 ≤ Dx 1 0 <;> by_cases hB : Dy 1 1 ≤ Dy 1 0 <;>
    norm_num [Sij, t11, t12, t21, t22, denom, tmp, bi, Finset.sum_range_succ, hA, hB]

lemma hhg_sum_two (Dx Dy : ℕ → ℕ → ℚ) : hhg_sum 2 Dx Dy = 0 := by
  unfold hhg_sum
  simp [Finset.sum_range_succ, Sij_diag, Sij_two_01, Sij_two_10]

/-- C7: with exactly `n = 2` observations the statistic operation returns
the value `0` and an empty metadata map, for every pair of inputs and
every (shape-respecting) distance routine. -/
theorem test_statistic_two_obs (distfn : RawMat → RawMat) (X Y : RawMat)
    (hdist : ∀ M : RawMat, (distfn M).rows = M.rows ∧ (distfn M).cols = M.rows)
    (hX : X.rows = 2) (hY : Y.rows = 2) :
    test_statistic_full distfn X Y = (0, []) := by
  have hn : (toDist distfn X).rows = 2 := by
    unfold toDist
    split
    · exact (hdist X).1.trans hX
    · exact hX
  have hrepr : test_statistic_full distfn X Y =
      (hhg_sum (toDist distfn X).rows (toDist distfn X).entry (toDist distfn Y).entry, []) := rfl
  rw [hrepr, hn, hhg_sum_two]

/-- A concrete shape-respecting distance routine (constant unit distances
off the diagonal). -/
def distW : RawMat → RawMat :=
  fun M => ⟨M.rows, M.rows, fun i j => if i = j then 0 else 1⟩

/-- A concrete 2 × 1 raw data matrix (two observations, one feature). -/
def Xw2 : RawMat := ⟨2, 1, matOf [[0], [4]]⟩

/-- A concrete 2 × 2 distance matrix (two observations). -/
def Yw2 : RawMat := ⟨2, 2, matOf [[0, 5], [5, 0]]⟩

/-- Witness for C7 at the concrete two-observation pair `Xw2`, `Yw2`. -/
theorem test_statistic_two_obs_witness : test_statistic_full distW Xw2 Yw2 = (0, []) :=
  test_statistic_two_obs distW Xw2 Yw2 (fun M => ⟨rfl, rfl⟩) rfl rfl

/-! ### `HHG.p_value` (lines 89-128)

The body of `p_value` is

```
test_stat = self.test_statistic()
test_stats_null = np.zeros(replication_factor)
for rep in range(replication_factor):
    permuted_y = np.random.permutation(self.matrix_Y)
    test_stats_null[rep] = self.test_statistic(matrix_X=self.matrix_X, matrix_Y=permuted_y)
self.p_value_ = np.where(test_stats_null >= test_stat)[0].shape[0] / replication_factor
```

Python raises exceptions at run time; we model a raising computation with
`Except PyErr`.  The very first statement invokes `test_statistic` — whose
signature requires the two positional parameters `matrix_X`, `matrix_Y` —
with no arguments at all; the explicit argument-binding step
`test_statistic_bound` captures Python's arity check.  The random draw of
each replication (`np.random.permutation`, which shuffles only the rows —
the first axis — of a 2-D array) is modelled by passing in the drawn index
permutation and applying it to the rows. -/

/-- Python run-time errors that the statements of `p_value` can raise. -/
inductive PyErr where
  | typeErrorMissingArgs
  | attributeError
  | valueErrorSequenceAssign
  deriving DecidableEq

/-- The instance attributes of an `HHG` object that `p_value` reads.
Nothing in `hhg.py` ever assigns `self.matrix_X` or `self.matrix_Y`, so on
any object produced by this module both are absent (`none`). -/
structure HHGState where
  matrix_X : Option RawMat := none
  matrix_Y : Option RawMat := none

/-- Reading `self.matrix_X` / `self.matrix_Y`: an absent attribute raises
`AttributeError`. -/
def getAttr (a : Option RawMat) : Except PyErr RawMat :=
  match a with
  | some M => Except.ok M
  | none => Except.error PyErr.attributeError

/-- Calling the two-required-parameter method `test_statistic` with the
argument values actually supplied at a call site: if either positional
parameter is unbound, Python raises
`TypeError: test_statistic() missing required positional arguments`. -/
def test_statistic_bound (distfn : RawMat → RawMat) (argX argY : Option RawMat) :
    Except PyErr (ℚ × List (String × ℚ)) :=
  match argX, argY with
  | some X, some Y => Except.ok (test_statistic_full distfn X Y)
  | _, _ => Except.error PyErr.typeErrorMissingArgs

/-- `np.random.permutation(M)` on a 2-D array with the drawn index
permutation `p`: it shuffles the rows (first axis) only — row `i` of the
result is row `p i` of `M`; columns are left untouched. -/
def rowPermute (p : ℕ → ℕ) (M : RawMat) : RawMat :=
  ⟨M.rows, M.cols, fun i j => M.entry (p i) j⟩

/-- `HHG.p_value`: the statements of lines 120-128 in order, with the
random permutation draws supplied as `perms`.  Note that the first
statement passes no arguments to `test_statistic`, that the loop body
reads the never-assigned attributes `self.matrix_X` / `self.matrix_Y`, and
that it stores the pair returned by `test_statistic` into a cell of the
float array `test_stats_null` (a `ValueError` in numpy); the final line
divides the count of null statistics `>=` the observed one by
`replication_factor`. -/
def p_value (distfn : RawMat → RawMat) (self : HHGState)
    (matrix_X matrix_Y : Option RawMat) (replication_factor : ℕ)
    (perms : ℕ → ℕ → ℕ) : Except PyErr ℚ := do
  -- test_stat = self.test_statistic()
  let test_stat ← test_statistic_bound distfn none none
  -- for rep in range(replication_factor): ...
  let test_stats_null ← (List.range replication_factor).mapM fun rep => do
    -- permuted_y = np.random.permutation(self.matrix_Y)
    let permuted_y := rowPermute (perms rep) (← getAttr self.matrix_Y)
    -- self.test_statistic(matrix_X=self.matrix_X, matrix_Y=permuted_y)
    let mX ← getAttr self.matrix_X
    let _tr ← test_statistic_bound distfn (some mX) (some permuted_y)
    -- test_stats_null[rep] = (statistic, metadata): numpy rejects the pair
    (Except.error PyErr.valueErrorSequenceAssign : Except PyErr ℚ)
  -- self.p_value_ = np.where(test_stats_null >= test_stat)[0].shape[0] / replication_factor
  pure (((test_stats_null.filter fun t => decide (test_stat.1 ≤ t)).length : ℚ) /
    (replication_factor : ℚ))

/-- C2 (refuted by the code): every call to `p_value`, whatever matrices
are passed, whatever the object's state, and however many replications are
requested, raises `TypeError` at its first statement — it neither reads
its own arguments nor derives any statistic; in particular a call on a
fresh object with valid `matrix_X` and `matrix_Y` fails instead of
returning a self-contained result. -/
theorem p_value_always_raises (distfn : RawMat → RawMat) (self : HHGState)
    (matrix_X matrix_Y : Option RawMat) (replication_factor : ℕ)
    (perms : ℕ → ℕ → ℕ) :
    p_value distfn self matrix_X matrix_Y replication_factor perms =
      Except.error PyErr.typeErrorMissingArgs := rfl

/-- C4 (refuted by the code): at a perfectly valid input — the fresh
object, the concrete distance matrices `Xw`, `Yw` and the default
`replication_factor = 1000` — `p_value` produces no quotient
`count / 1000` at all: it raises `TypeError`. -/
theorem p_value_no_quotient :
    p_value id {} (some Xw) (some Yw) 1000 (fun _ k => k) =
      Except.error PyErr.typeErrorMissingArgs := rfl

/-- C8 (refuted by the code): with samples of mismatched row counts
(`Xw` has 3 rows, `Yw2` has 2) and a non-positive replication factor `0`,
the error signalled is still the `TypeError` of the first statement — no
dimension or replication-factor validation is ever performed (the module
defines neither `DimensionMismatchError` nor `InvalidInputError`). -/
theorem p_value_no_validation :
    p_value id {} (some Xw) (some Yw2) 0 (fun _ k => k) =
      Except.error PyErr.typeErrorMissingArgs := rfl

/-- C9 (refuted by the code): under any two (even different) sequences of
random permutation draws, `p_value` produces no null distribution and no
p-value — both runs abort with the same `TypeError`, so there is no
seed-reproducible permutation sequence to speak of (the signature accepts
no random-number source at all). -/
theorem p_value_no_null_distribution :
    p_value id {} (some Xw) (some Yw) 1000 (fun _ k => k) =
        Except.error PyErr.typeErrorMissingArgs ∧
      p_value id {} (some Xw) (some Yw) 1000 (fun _ k => k + 1) =
        Except.error PyErr.typeErrorMissingArgs := ⟨rfl, rfl⟩

/-- C10 (refuted by the code): the permutation step
`np.random.permutation(self.matrix_Y)` acts on rows only.  Applied to the
valid distance matrix `Xw` with the draw that swaps indices 0 and 1, the
matrix used for the permuted statistic violates both distance-matrix
invariants: its diagonal entry `(0,0)` is `1 ≠ 0` and it is asymmetric at
`(0,2)`/`(2,0)`. -/
theorem rowPermute_breaks_invariants :
    IsDistMat 3 Xw.entry ∧
      (rowPermute (fun i => if i = 0 then 1 else if i = 1 then 0 else i) Xw).entry 0 0 ≠ 0 ∧
      (rowPermute (fun i => if i = 0 then 1 else if i = 1 then 0 else i) Xw).entry 0 2 ≠
        (rowPermute (fun i => if i = 0 then 1 else if i = 1 then 0 else i) Xw).entry 2 0 := by
  refine ⟨by decide, by decide, by decide⟩

end HHG
